import Mathlib

/-!
Verification of the sandboxed room-scripting engine: value codec
(rpc-types), rate limiter and RPC dispatch (rpc), virtual document model
(dom), and minimal participant state (client-minimal), shallowly embedded
from the JavaScript sources.
-/

set_option maxHeartbeats 1000000

namespace RoomEngine

/-- A JavaScript value, as the codec sees it.  Numbers are modelled as
integers (the codec never does arithmetic on them), `vvec3` is a `Vector3`
instance with numeric components, `vfun` is a function value (identified by
its name), and `vobj` is a plain object as an insertion-ordered list of
string-keyed fields. -/
inductive JSVal : Type where
  | vnull : JSVal
  | vundef : JSVal
  | vnum : Int → JSVal
  | vbool : Bool → JSVal
  | vstr : String → JSVal
  | varr : List JSVal → JSVal
  | vobj : List (String × JSVal) → JSVal
  | vvec3 : Int → Int → Int → JSVal
  | vfun : String → JSVal

/-- JavaScript truthiness: null, undefined, 0, the empty string and false
are falsy; every object (arrays, plain objects, Vector3 instances,
functions) is truthy. -/
def truthy : JSVal → Bool
  | .vnull => false
  | .vundef => false
  | .vnum n => n != 0
  | .vbool b => b
  | .vstr s => s != ""
  | .varr _ => true
  | .vobj _ => true
  | .vvec3 _ _ _ => true
  | .vfun _ => true

/-- JavaScript string coercion, used for error messages and object
property keys.  It is exact for primitives (the only keys the codec ever
produces, since Object.keys yields strings); the rendering of composite
values is abbreviated. -/
def jsToStr : JSVal → String
  | .vnull => "null"
  | .vundef => "undefined"
  | .vnum n => toString n
  | .vbool b => toString b
  | .vstr s => s
  | .varr _ => ""
  | .vobj _ => "[object Object]"
  | .vvec3 x y z => "Vector3(" ++ toString x ++ "," ++ toString y ++ "," ++ toString z ++ ")"
  | .vfun n => "function " ++ n

/-- RpcTypes.nameFor: null for a falsy value, then instanceof Vector3,
Array.isArray, typeof obj === 'object' in source order; any other value
(primitives, functions) falls off the end, i.e. undefined (`none`). -/
def nameFor (v : JSVal) : Option String :=
  if truthy v = false then none
  else match v with
    | .vvec3 _ _ _ => some "v3"
    | .varr _ => some "a"
    | .vobj _ => some "o"
    | _ => none

/-- Object.keys of a plain object: its field names in insertion order. -/
def keyNames (fs : List (String × JSVal)) : List String := fs.map Prod.fst

/-- RpcArguments.serialize applied to a list of strings (the keys of an
object, as in the 'o' case of RpcTypes.serialize): strings pass through
the codec untouched, so this is the absence sentinel for no keys and the
plain list otherwise.  The lemma serializeKeys_spec certifies agreement
with the recursive serializer. -/
def serializeKeys (ks : List String) : JSVal :=
  match ks with
  | [] => .vnull
  | _ => .varr (ks.map JSVal.vstr)

mutual

/-- RpcTypes.serialize.  A value without a type name (nameFor none: every
primitive and function value) is returned directly; a tagged composite
becomes an array headed by its wire tag, the tag nameFor assigns to its
constructor.  The 'v3' payload RpcArguments.serialize(obj.x, obj.y,
obj.z) is written out as the three serialized numbers (lemma
serializeVec_spec certifies this), and the 'o' case uses serializeKeys
for RpcArguments.serialize(keys) (lemma serializeKeys_spec) and
serializeFieldVals for the values.  The source's switch statement,
including its default branch that throws "No way to serialize", is
reproduced verbatim in serializeValStep; theorem serializeVal_step_spec
proves this definition equal to it, so the default branch is
unreachable. -/
def serializeVal (v : JSVal) : Except String JSVal :=
  match v with
  | .varr es => do
      let payload ← serializeArgs es
      return .varr [.vstr "a", payload]
  | .vobj fs => do
      let valsWire ← serializeFieldVals fs
      return .varr [.vstr "o", serializeKeys (keyNames fs), valsWire]
  | .vvec3 x y z =>
      return .varr [.vstr "v3", .varr [.vnum x, .vnum y, .vnum z]]
  | v => .ok v

/-- RpcArguments.serialize on an explicit argument list (after the
variadic-call normalization, see serializeVariadic): an empty list yields
the absence sentinel null, otherwise each argument is serialized. -/
def serializeArgs (args : List JSVal) : Except String JSVal :=
  match args with
  | [] => .ok .vnull
  | v :: vs => do
      let w ← serializeVal v
      let ws ← serializeList vs
      return .varr (w :: ws)

/-- args.map(RpcTypes.serialize), with a thrown failure propagating. -/
def serializeList (args : List JSVal) : Except String (List JSVal) :=
  match args with
  | [] => .ok []
  | v :: vs => do
      let w ← serializeVal v
      let ws ← serializeList vs
      return (w :: ws)

/-- RpcArguments.serialize(keys.map(key => obj[key])): the object's field
values serialized as one argument list (lemma serializeFieldVals_spec
certifies it equals serializeArgs over the projected values). -/
def serializeFieldVals (fs : List (String × JSVal)) : Except String JSVal :=
  match fs with
  | [] => .ok .vnull
  | (_, v) :: rest => do
      let w ← serializeVal v
      let ws ← serializeFieldList rest
      return .varr (w :: ws)

/-- The map part of serializeFieldVals. -/
def serializeFieldList (fs : List (String × JSVal)) : Except String (List JSVal) :=
  match fs with
  | [] => .ok []
  | (_, v) :: rest => do
      let w ← serializeVal v
      let ws ← serializeFieldList rest
      return (w :: ws)

end

/-- RpcArguments.serialize as called (variadic): a single array argument
is taken as the explicit argument list, any other call shape takes the
positional arguments themselves as the list (Array.from(arguments)). -/
def serializeVariadic (callArgs : List JSVal) : Except String JSVal :=
  match callArgs with
  | [.varr es] => serializeArgs es
  | other => serializeArgs other

/-- One step of RpcTypes.serialize written exactly as the source
dispatches it: look up the type name, return the value directly when
there is none, otherwise switch on the tag with the source's default
branch throwing "No way to serialize".  The recursive payload
serializations are passed in as oracles; theorem serializeVal_step_spec
proves serializeVal equal to this step applied to the codec's own
recursive calls, certifying in particular that the default branch is
unreachable. -/
def serializeValStep (recArgs : List JSVal → Except String JSVal)
    (recFieldVals : List (String × JSVal) → Except String JSVal)
    (v : JSVal) : Except String JSVal :=
  match nameFor v with
  | none => .ok v
  | some tag =>
      match tag, v with
      | "a", .varr es => do
          let payload ← recArgs es
          return .varr [.vstr "a", payload]
      | "o", .vobj fs => do
          let valsWire ← recFieldVals fs
          return .varr [.vstr "o", serializeKeys (keyNames fs), valsWire]
      | "v3", .vvec3 x y z =>
          return .varr [.vstr "v3", .varr [.vnum x, .vnum y, .vnum z]]
      | _, _ => .error ("No way to serialize " ++ jsToStr v)

/-- Overwriting property assignment obj[key] = val on a plain object:
an existing key is updated in place (keeping its position), a new key is
appended in insertion order. -/
def objInsert (fields : List (String × JSVal)) (k : String) (v : JSVal) :
    List (String × JSVal) :=
  match fields with
  | [] => [(k, v)]
  | (k0, v0) :: rest =>
      if k0 = k then (k0, v) :: rest else (k0, v0) :: objInsert rest k v

/-- keys.reduce((obj, key, index) => obj[key] = vals[index], {}): the
accumulator walks the keys while the value list is consumed in step, so
vals[index] is the head of the remaining values (undefined once the
values run out). -/
def buildObjGo (acc : List (String × JSVal)) :
    List JSVal → List JSVal → List (String × JSVal)
  | [], _ => acc
  | k :: ks, vals =>
      buildObjGo (objInsert acc (jsToStr k) (vals.headD .vundef)) ks vals.tail

/-- The object reconstructed by the 'o' case of RpcTypes.read. -/
def buildObj (keys vals : List JSVal) : List (String × JSVal) :=
  buildObjGo [] keys vals

/-- A Vector3 component as stored by the constructor: a number is kept,
and an absent (undefined) component falls back to the default 0.  The
codec only ever produces numeric components here. -/
def vecCompOf (v : JSVal) : Int :=
  match v with
  | .vnum n => n
  | _ => 0

mutual

/-- RpcArguments.read: a falsy wire (in particular the absence sentinel
null) decodes to the empty argument list; an array wire decodes each raw
element; any other truthy wire has no .map method, which in the source is
a TypeError thrown to the caller. -/
def readArgs (w : JSVal) : Except String (List JSVal) :=
  if truthy w = false then .ok []
  else match w with
    | .varr raws => readRawList raws
    | _ => .error "TypeError: serializedArgs.map is not a function"

/-- The map over raw wire arguments inside RpcArguments.read. -/
def readRawList (raws : List JSVal) : Except String (List JSVal) :=
  match raws with
  | [] => .ok []
  | r :: rs => do
      let v ← readRaw r
      let vs ← readRawList rs
      return (v :: vs)

/-- One raw wire argument: anything that is not an array is returned
directly; an array carries its wire tag as its first element, which is
removed (rawArg.shift()) before dispatching on it.  For an empty array
the tag rawArg[0] is undefined, and RpcTypes.read(undefined, []) reaches
its throwing default case (lemma readRaw_nil_spec certifies that the
written-out error is exactly readType applied to undefined). -/
def readRaw (r : JSVal) : Except String JSVal :=
  match r with
  | .varr (t :: rest) => readType t rest
  | .varr [] => .error ("Unable to read " ++ jsToStr .vundef)
  | v => .ok v

/-- RpcTypes.read: dispatch on the wire tag with the tag already removed
from the payload.  'a' reads serialized[0] as an argument list; 'o' reads
serialized[0] as the keys and serialized[1] as the values and zips them
into an object; 'v3' reads serialized[0] as the components and builds a
Vector3; anything else throws "Unable to read".  An index beyond the end
of the payload yields undefined, and RpcArguments.read of undefined is
the empty list: the short-payload cases below write that empty list out
directly (lemmas readType_a_nil_spec, readType_o_short_spec and
readType_v3_nil_spec certify them against readArgs of undefined). -/
def readType (tag : JSVal) (payload : List JSVal) : Except String JSVal :=
  match tag, payload with
  | .vstr "a", p0 :: _ => do
      let elems ← readArgs p0
      return .varr elems
  | .vstr "a", [] =>
      return .varr []
  | .vstr "o", p0 :: p1 :: _ => do
      let keys ← readArgs p0
      let vals ← readArgs p1
      return .vobj (buildObj keys vals)
  | .vstr "o", [p0] => do
      let keys ← readArgs p0
      return .vobj (buildObj keys [])
  | .vstr "o", [] =>
      return .vobj (buildObj [] [])
  | .vstr "v3", p0 :: _ => do
      let vector ← readArgs p0
      return .vvec3 (vecCompOf (vector.getD 0 .vundef))
        (vecCompOf (vector.getD 1 .vundef)) (vecCompOf (vector.getD 2 .vundef))
  | .vstr "v3", [] =>
      return .vvec3 (vecCompOf (([] : List JSVal).getD 0 .vundef))
        (vecCompOf (([] : List JSVal).getD 1 .vundef))
        (vecCompOf (([] : List JSVal).getD 2 .vundef))
  | t, _ => .error ("Unable to read " ++ jsToStr t)

end

mutual

/-- The values representable by the codec per the specification:
primitives, null and undefined, Vector3 values, ordered sequences and
keyed maps of representable values (with the distinct field names every
JavaScript object has), and arbitrary nestings thereof.  Function values
are not representable. -/
def representable (v : JSVal) : Bool :=
  match v with
  | .vnull => true
  | .vundef => true
  | .vnum _ => true
  | .vbool _ => true
  | .vstr _ => true
  | .vvec3 _ _ _ => true
  | .varr es => representableList es
  | .vobj fs => (keyNames fs).Nodup && representableFields fs
  | .vfun _ => false

/-- Every element of an argument list is representable. -/
def representableList (es : List JSVal) : Bool :=
  match es with
  | [] => true
  | e :: rest => representable e && representableList rest

/-- Every field value of an object is representable. -/
def representableFields (fs : List (String × JSVal)) : Bool :=
  match fs with
  | [] => true
  | (_, v) :: rest => representable v && representableFields rest

end

/-!  RpcHandler.readArgsToString: render the decoded arguments back into
JavaScript source text for the synthesized call. -/

/-- arg.replace(quote, backslash-quote) on the character list of a string:
String.prototype.replace with a string pattern rewrites only the first
occurrence and leaves the rest of the string untouched. -/
def escapeFirstQuote : List Char → List Char
  | [] => []
  | c :: rest =>
      if c = '\'' then '\\' :: '\'' :: rest
      else c :: escapeFirstQuote rest

/-- The same operation on a String value. -/
def jsReplaceFirstQuote (s : String) : String :=
  String.mk (escapeFirstQuote s.data)

mutual

/-- JSON.stringify for the non-string decoded arguments.  Exact for null,
numbers and booleans; nested strings keep their double-quote delimiters
(their JSON escaping is abbreviated), undefined inside an array prints as
null, a Vector3 prints its three enumerable fields, and a function (whose
stringification is undefined) prints as the empty fragment Array.join
would produce for it. -/
def jsonStringify (v : JSVal) : String :=
  match v with
  | .vnull => "null"
  | .vundef => "null"
  | .vnum n => toString n
  | .vbool b => toString b
  | .vstr s => "\"" ++ s ++ "\""
  | .varr es => "[" ++ jsonList es ++ "]"
  | .vobj fs => "\x7b" ++ jsonFields fs ++ "\x7d"
  | .vvec3 x y z =>
      "\x7b\"x\":" ++ toString x ++ ",\"y\":" ++ toString y ++
        ",\"z\":" ++ toString z ++ "\x7d"
  | .vfun _ => ""

/-- Comma-joined JSON renderings of array elements. -/
def jsonList (es : List JSVal) : String :=
  match es with
  | [] => ""
  | [e] => jsonStringify e
  | e :: rest => jsonStringify e ++ "," ++ jsonList rest

/-- Comma-joined JSON renderings of object fields. -/
def jsonFields (fs : List (String × JSVal)) : String :=
  match fs with
  | [] => ""
  | [(k, v)] => "\"" ++ k ++ "\":" ++ jsonStringify v
  | (k, v) :: rest => "\"" ++ k ++ "\":" ++ jsonStringify v ++ "," ++ jsonFields rest

end

/-- The per-argument rendering inside readArgsToString: a decoded string
is wrapped in single quotes after the single replace above ("safety
first"); everything else goes through JSON.stringify, with the undefined
results (undefined and function values) rendered as the empty string by
the surrounding Array.join. -/
def renderArg (arg : JSVal) : String :=
  match arg with
  | .vstr s => "'" ++ jsReplaceFirstQuote s ++ "'"
  | .vundef => ""
  | .vfun _ => ""
  | v => jsonStringify v

/-- RpcHandler.readArgsToString: decode the wire arguments (a decode
failure is thrown to the caller) and join the rendered arguments with
commas. -/
def readArgsToString (serializedArgs : JSVal) : Except String String := do
  let args ← readArgs serializedArgs
  return String.intercalate "," (args.map renderArg)

/-!  The VM's evaluation of the synthesized call text.  VMGlobal.run does
not call the registered function directly: it splices the rendered
argument text into a source string and evaluates that string in the VM,
so the argument values the callable receives are whatever the VM parses
back out of the text — and a text the injection-unsafe rendering has
broken is a SyntaxError, caught by run's try/catch before anything
executes.  The parser below covers exactly the literal grammar the
renderer emits: null, true, false, optionally negative integer numerals,
single- and double-quoted strings with escape sequences, array literals,
and object literals with double-quoted keys. -/

/-- One character of a JavaScript string escape sequence.  The renderer
itself only ever emits a backslash before a quote, but a decoded string
can contain backslashes of its own, which the VM then interprets.  The
single-character escapes are modelled; hexadecimal and unicode escapes
(never produced by the renderer) are not. -/
def jsEscChar (c : Char) : Char :=
  match c with
  | 'n' => '\n'
  | 't' => '\t'
  | 'r' => '\r'
  | 'b' => '\x08'
  | 'f' => '\x0C'
  | 'v' => '\x0B'
  | '0' => '\x00'
  | c => c

/-- Scan a JavaScript string literal body up to its closing quote
character q, applying escape sequences; none is the SyntaxError of an
unterminated literal.  Fuel-indexed; any fuel of at least the input
length suffices (lemma parseJSString_clean). -/
def parseJSString (q : Char) : Nat → List Char → Option (List Char × List Char)
  | _, [] => none
  | 0, _ => none
  | fuel + 1, c :: rest =>
      if c = q then some ([], rest)
      else if c = '\\' then
        match rest with
        | [] => none
        | e :: rest2 =>
            (parseJSString q fuel rest2).map (fun p => (jsEscChar e :: p.1, p.2))
      else (parseJSString q fuel rest).map (fun p => (c :: p.1, p.2))

/-- Accumulate the longest digit prefix. -/
def parseNatGo (acc : Nat) : Nat → List Char → Nat × List Char
  | _, [] => (acc, [])
  | 0, s => (acc, s)
  | fuel + 1, c :: rest =>
      if c.isDigit then parseNatGo (10 * acc + (c.toNat - 48)) fuel rest
      else (acc, c :: rest)

/-- A nonempty digit prefix as a numeral. -/
def parseNat (fuel : Nat) (s : List Char) : Option (Nat × List Char) :=
  match s with
  | c :: _ => if c.isDigit then some (parseNatGo 0 fuel s) else none
  | [] => none

mutual

/-- One JavaScript literal expression of the grammar the argument
renderer emits.  Anything else — in particular the stray text left after
a string whose second quote went unescaped — is a SyntaxError (none). -/
def parseExpr : Nat → List Char → Option (JSVal × List Char)
  | 0, _ => none
  | fuel + 1, s =>
      match s with
      | 'n' :: 'u' :: 'l' :: 'l' :: rest => some (.vnull, rest)
      | 't' :: 'r' :: 'u' :: 'e' :: rest => some (.vbool true, rest)
      | 'f' :: 'a' :: 'l' :: 's' :: 'e' :: rest => some (.vbool false, rest)
      | '\'' :: rest =>
          (parseJSString '\'' fuel rest).map (fun p => (.vstr (String.mk p.1), p.2))
      | '"' :: rest =>
          (parseJSString '"' fuel rest).map (fun p => (.vstr (String.mk p.1), p.2))
      | '[' :: ']' :: rest => some (.varr [], rest)
      | '[' :: rest => (parseElems fuel rest).map (fun p => (.varr p.1, p.2))
      | '\x7b' :: '\x7d' :: rest => some (.vobj [], rest)
      | '\x7b' :: rest => (parseFields fuel rest).map (fun p => (.vobj p.1, p.2))
      | '-' :: c :: rest =>
          if c.isDigit then
            (parseNat (fuel + 1) (c :: rest)).map (fun p => (.vnum (-(p.1 : Int)), p.2))
          else none
      | c :: rest =>
          if c.isDigit then
            (parseNat (fuel + 1) (c :: rest)).map (fun p => (.vnum (p.1 : Int), p.2))
          else none
      | [] => none

/-- The comma-separated elements of a nonempty array literal, through the
closing bracket. -/
def parseElems : Nat → List Char → Option (List JSVal × List Char)
  | 0, _ => none
  | fuel + 1, s => do
      let (v, r) ← parseExpr fuel s
      match r with
      | ']' :: rest => some ([v], rest)
      | ',' :: rest => (parseElems fuel rest).map (fun p => (v :: p.1, p.2))
      | _ => none

/-- The comma-separated double-quoted-key fields of a nonempty object
literal, through the closing brace. -/
def parseFields : Nat → List Char → Option (List (String × JSVal) × List Char)
  | 0, _ => none
  | fuel + 1, s =>
      match s with
      | '"' :: rest => do
          let (k, r1) ← parseJSString '"' fuel rest
          match r1 with
          | ':' :: r2 => do
              let (v, r3) ← parseExpr fuel r2
              match r3 with
              | '\x7d' :: rest2 => some ([(String.mk k, v)], rest2)
              | ',' :: rest2 =>
                  (parseFields fuel rest2).map (fun p => ((String.mk k, v) :: p.1, p.2))
              | _ => none
          | _ => none
      | _ => none

end

/-- The configuration built by InternalInterspaceModule._buildConfig:
supplied options overlaid on the defaults maxRate 5, unreliable false. -/
structure RpcConfig where
  maxRate : Int
  unreliable : Bool
deriving Repr, DecidableEq

/-- Partial registration options: absent fields keep their defaults. -/
structure RpcOpts where
  maxRate : Option Int := none
  unreliable : Option Bool := none

/-- InternalInterspaceModule._buildConfig. -/
def buildConfig (opts : Option RpcOpts) : RpcConfig :=
  match opts with
  | none => { maxRate := 5, unreliable := false }
  | some o => { maxRate := o.maxRate.getD 5, unreliable := o.unreliable.getD false }

/-- The mutable fields of a GlobalRateLimiter: `last` is the start of the
current window (undefined before the first call; a real Date.now()
timestamp is never the falsy 0, so !this.last is exactly "no prior
timestamp"), and `calls` the number of calls counted in the window. -/
structure GlobalLimiterState where
  last : Option Int
  calls : Int
deriving Repr, DecidableEq

/-- A fresh limiter, before any call. -/
def GlobalLimiterState.init : GlobalLimiterState := { last := none, calls := 0 }

/-- GlobalRateLimiter.allows at time `now`: the first call of a fresh
window (no prior timestamp, or strictly more than 1000ms since the window
start) resets the window start to now and the count to 1 and admits;
otherwise the count is incremented, and the call is denied exactly when
the incremented count exceeds the configured maxRate. -/
def globalAllows (cfg : RpcConfig) (st : GlobalLimiterState) (now : Int) :
    Bool × GlobalLimiterState :=
  match st.last with
  | none => (true, { last := some now, calls := 1 })
  | some last =>
      if now - last > 1000 then (true, { last := some now, calls := 1 })
      else
        let calls := st.calls + 1
        if calls > cfg.maxRate then (false, { st with calls := calls })
        else (true, { st with calls := calls })

/-- Run a sequence of calls (given by their timestamps) through one
GlobalRateLimiter, collecting each admission decision. -/
def runCalls (cfg : RpcConfig) (st : GlobalLimiterState) :
    List Int → List Bool × GlobalLimiterState
  | [] => ([], st)
  | t :: ts =>
      let (ok, st1) := globalAllows cfg st t
      let (oks, st2) := runCalls cfg st1 ts
      (ok :: oks, st2)

/-- The admission decisions a window produces for n further calls when
the window has already counted c calls: each call increments the count
and is admitted exactly while the incremented count stays within
maxRate. -/
def windowDecisions (maxRate : Int) (c : Int) : Nat → List Bool
  | 0 => []
  | n + 1 => decide (c + 1 ≤ maxRate) :: windowDecisions maxRate (c + 1) n

/-- PerUserRateLimiter: one lazily created GlobalRateLimiter per caller
identity, never evicted. -/
structure PerUserLimiterState where
  clients : List (String × GlobalLimiterState)
deriving Repr, DecidableEq

/-- A fresh per-user limiter (constructor). -/
def PerUserLimiterState.init : PerUserLimiterState := { clients := [] }

/-- Underlying parsed nodes and wrapper objects are named by numbers;
reference equality of wrappers is equality of their numbers. -/
abbrev NodeId := Nat
abbrev WrapperId := Nat

/-- The wrapper bookkeeping: `vmElementOf` is the __vmElement property
stashed on each underlying node, `wrapperNode` the sandbox-invisible
ElementToCheerio WeakMap from wrapper back to node, and `nextWrapper`
names the next wrapper object to be allocated. -/
structure DomCache where
  vmElementOf : List (Nat × WrapperId)
  wrapperNode : List (Nat × NodeId)
  nextWrapper : Nat
deriving Repr, DecidableEq

/-- Numeric-key association lookup. -/
def natFind (l : List (Nat × Nat)) (k : Nat) : Option Nat :=
  match l with
  | [] => none
  | (k0, v) :: rest => if k0 = k then some v else natFind rest k

/-- VMElement.from: null in, null out; a node carrying a cached wrapper
returns that wrapper; otherwise a new wrapper is allocated, stashed on
the node and recorded in the WeakMap. -/
def VMElement.from (st : DomCache) (node : Option NodeId) :
    Option WrapperId × DomCache :=
  match node with
  | none => (none, st)
  | some n =>
      match natFind st.vmElementOf n with
      | some w => (some w, st)
      | none =>
          let w := st.nextWrapper
          (some w,
           { vmElementOf := (n, w) :: st.vmElementOf,
             wrapperNode := (w, n) :: st.wrapperNode,
             nextWrapper := w + 1 })

/-- A parsed document for query purposes: its nodes in document order,
each with its id attribute when present. -/
structure VMDoc where
  nodes : List (NodeId × Option String)

/-- The underlying nodes matched by the selector for `id`, in document
order (cheerio returns every match). -/
def findByIdNodes (doc : VMDoc) (id : String) : List NodeId :=
  (doc.nodes.filter (fun p => p.2 = some id)).map Prod.fst

/-- VMDocument._query: wrap every matched node via VMElement.from,
threading the cache through the matches. -/
def queryWrap (st : DomCache) : List NodeId → List (Option WrapperId) × DomCache
  | [] => ([], st)
  | n :: rest =>
      let (w, st1) := VMElement.from st (some n)
      let (ws, st2) := queryWrap st1 rest
      (w :: ws, st2)

/-- VMDocument.getElementById: the first wrapped match, undefined when
there is none. -/
def getElementById (doc : VMDoc) (st : DomCache) (id : String) :
    Option WrapperId × DomCache :=
  let (ws, st1) := queryWrap st (findByIdNodes doc id)
  (ws.headD none, st1)

/-- The tree structure underlying a document, for the mutation operations:
each node's ordered child list.  A node's parent and siblings are derived
from it. -/
structure TreeDoc where
  children : List (Nat × List NodeId)
deriving Repr, DecidableEq

/-- Association lookup in a child-list table. -/
def findChildren (l : List (Nat × List NodeId)) (k : Nat) : Option (List NodeId) :=
  match l with
  | [] => none
  | (k0, cs) :: rest => if k0 = k then some cs else findChildren rest k

/-- The ordered children of a node. -/
def childrenOf (t : TreeDoc) (n : NodeId) : List NodeId :=
  (findChildren t.children n).getD []

/-- The parent of a node: the node holding it among its children
(childCheerio.parentNode). -/
def treeParent (t : TreeDoc) (c : NodeId) : Option NodeId :=
  (t.children.find? (fun p => p.2.contains c)).map Prod.fst

/-- Numeric-key association overwrite-or-append. -/
def natSetChildren (l : List (Nat × List NodeId)) (k : Nat) (cs : List NodeId) :
    List (Nat × List NodeId) :=
  match l with
  | [] => [(k, cs)]
  | (k0, v0) :: rest =>
      if k0 = k then (k0, cs) :: rest else (k0, v0) :: natSetChildren rest k cs

/-- VMElement.appendChild: when the child's underlying node already has a
parent the call throws "already has a parent!" before touching anything,
so the tree comes back exactly as it was; otherwise cheerio append places
the child at the end of this element's children.  The Option String is
the thrown InvariantViolation. -/
def appendChild (t : TreeDoc) (self child : NodeId) : TreeDoc × Option String :=
  match treeParent t child with
  | some _ => (t, some (toString child ++ " already has a parent!"))
  | none =>
      ({ children := natSetChildren t.children self (childrenOf t self ++ [child]) },
       none)

/-!  Participant state (client-minimal source). -/

/-- A participant's position state. -/
structure ClientState where
  x : Int
  y : Int
  z : Int
deriving Repr, DecidableEq

/-- The MinimalClient constructor state. -/
def ClientState.init : ClientState := { x := 0, y := 0, z := 0 }

/-- A partial position update: lodash merge skips fields the update does
not supply. -/
structure StateUpdate where
  x : Option Int := none
  y : Option Int := none
  z : Option Int := none

/-- The merge in MinimalClient.updateState: supplied fields overlaid on
the current componentwise values. -/
def mergeState (current : ClientState) (upd : StateUpdate) : ClientState :=
  { x := upd.x.getD current.x,
    y := upd.y.getD current.y,
    z := upd.z.getD current.z }

/-- MinimalClient.updateState: merge the partial update onto the current
position and, when the merged position equals the current position
componentwise, return without assigning (no state change); otherwise
store the merged state.  The Bool reports whether the state was
assigned. -/
def updateState (current : ClientState) (upd : StateUpdate) :
    ClientState × Bool :=
  let newState := mergeState current upd
  if current.x = newState.x ∧ current.y = newState.y ∧ current.z = newState.z then
    (current, false)
  else (newState, true)

/-!  Certification lemmas: the specialized branches written into the
definitions above agree with the source's compositions. -/

/-- RpcArguments.read of undefined (a falsy value) is the empty list. -/
theorem readArgs_undef : readArgs .vundef = .ok [] := rfl

/-- The inlined error of readRaw on an empty raw array is exactly
RpcTypes.read applied to the undefined tag rawArg[0]. -/
theorem readRaw_nil_spec : readRaw (.varr []) = readType .vundef [] := rfl

/-- The short-payload 'a' case agrees with reading the undefined
serialized[0]. -/
theorem readType_a_nil_spec :
    readType (.vstr "a") [] = (do
      let elems ← readArgs .vundef
      return JSVal.varr elems) := rfl

/-- The short-payload 'o' cases agree with reading the undefined
serialized[0] / serialized[1]. -/
theorem readType_o_short_spec (p0 : JSVal) :
    readType (.vstr "o") [p0] = (do
      let keys ← readArgs p0
      let vals ← readArgs .vundef
      return JSVal.vobj (buildObj keys vals)) ∧
    readType (.vstr "o") [] = (do
      let keys ← readArgs .vundef
      let vals ← readArgs .vundef
      return JSVal.vobj (buildObj keys vals)) := by
  constructor
  · cases h : readArgs p0 <;>
      simp [readType, h, readArgs_undef, Bind.bind, Except.bind]
  · rfl

/-- The short-payload 'v3' case agrees with reading the undefined
serialized[0]. -/
theorem readType_v3_nil_spec :
    readType (.vstr "v3") [] = (do
      let vector ← readArgs .vundef
      return JSVal.vvec3 (vecCompOf (vector.getD 0 .vundef))
        (vecCompOf (vector.getD 1 .vundef))
        (vecCompOf (vector.getD 2 .vundef))) := rfl

/-- nameFor assigns no type name to any primitive, null, undefined or
function value: all of them are returned directly by the serializer. -/
theorem nameFor_untagged :
    (∀ n : Int, nameFor (.vnum n) = none) ∧
    (∀ b : Bool, nameFor (.vbool b) = none) ∧
    (∀ s : String, nameFor (.vstr s) = none) ∧
    (∀ f : String, nameFor (.vfun f) = none) ∧
    nameFor .vnull = none ∧ nameFor .vundef = none := by
  refine ⟨fun n => ?_, fun b => ?_, fun s => ?_, fun f => ?_, rfl, rfl⟩ <;>
    (unfold nameFor; split <;> rfl)

/-- nameFor tags arrays 'a', plain objects 'o' and Vector3 values 'v3'. -/
theorem nameFor_tagged (es : List JSVal) (fs : List (String × JSVal))
    (x y z : Int) :
    nameFor (.varr es) = some "a" ∧ nameFor (.vobj fs) = some "o" ∧
      nameFor (.vvec3 x y z) = some "v3" :=
  ⟨rfl, rfl, rfl⟩

/-- serializeVal is exactly the source's dispatch (nameFor lookup, direct
return for untagged values, switch on the tag, throwing default branch)
applied to the codec's recursive calls.  In particular the "No way to
serialize" branch is unreachable. -/
theorem serializeVal_step_spec (v : JSVal) :
    serializeVal v = serializeValStep serializeArgs serializeFieldVals v := by
  cases v with
  | vnum n =>
      have h := nameFor_untagged.1 n
      simp [serializeVal, serializeValStep, h]
  | vbool b =>
      have h := nameFor_untagged.2.1 b
      simp [serializeVal, serializeValStep, h]
  | vstr s =>
      have h := nameFor_untagged.2.2.1 s
      simp [serializeVal, serializeValStep, h]
  | vfun f =>
      have h := nameFor_untagged.2.2.2.1 f
      simp [serializeVal, serializeValStep, h]
  | _ => rfl

/-- Serializing a string argument returns it untouched (it has no type
name, whether or not it is the falsy empty string). -/
theorem serializeVal_str (s : String) : serializeVal (.vstr s) = .ok (.vstr s) := rfl

/-- Serializing a number argument returns it untouched. -/
theorem serializeVal_num (n : Int) : serializeVal (.vnum n) = .ok (.vnum n) := rfl

/-- The map part of the serializer on a list of strings is the identity. -/
theorem serializeList_strings (ks : List String) :
    serializeList (ks.map JSVal.vstr) = .ok (ks.map JSVal.vstr) := by
  induction ks with
  | nil => rfl
  | cons k rest ih =>
      simp [serializeList, serializeVal_str k, ih, Bind.bind, Except.bind, Pure.pure, Except.pure]

/-- serializeKeys agrees with RpcArguments.serialize applied to the key
strings, as in the source's 'o' case. -/
theorem serializeKeys_spec (ks : List String) :
    serializeArgs (ks.map JSVal.vstr) = .ok (serializeKeys ks) := by
  cases ks with
  | nil => rfl
  | cons k rest =>
      simp [serializeArgs, serializeKeys, serializeVal_str k,
        serializeList_strings rest, Bind.bind, Except.bind, Pure.pure, Except.pure]

/-- The written-out 'v3' payload agrees with
RpcArguments.serialize(obj.x, obj.y, obj.z). -/
theorem serializeVec_spec (x y z : Int) :
    serializeArgs [.vnum x, .vnum y, .vnum z] =
      .ok (.varr [.vnum x, .vnum y, .vnum z]) := rfl

/-- The map part of serializeFieldVals agrees with mapping the serializer
over the projected field values. -/
theorem serializeFieldList_spec (fs : List (String × JSVal)) :
    serializeFieldList fs = serializeList (fs.map Prod.snd) := by
  induction fs with
  | nil => rfl
  | cons f rest ih =>
      cases f with
      | mk k v => simp [serializeFieldList, serializeList, ih]

/-- serializeFieldVals agrees with
RpcArguments.serialize(keys.map(key => obj[key])). -/
theorem serializeFieldVals_spec (fs : List (String × JSVal)) :
    serializeFieldVals fs = serializeArgs (fs.map Prod.snd) := by
  cases fs with
  | nil => rfl
  | cons f rest =>
      cases f with
      | mk k v => simp [serializeFieldVals, serializeArgs, serializeFieldList_spec]

/-- Reading back a list of plain strings returns them untouched. -/
theorem readRawList_strings (ks : List String) :
    readRawList (ks.map JSVal.vstr) = .ok (ks.map JSVal.vstr) := by
  induction ks with
  | nil => rfl
  | cons k rest ih =>
      simp [readRawList, readRaw, ih, Bind.bind, Except.bind, Pure.pure, Except.pure]

/-- Reading back the serialized keys yields exactly the key strings. -/
theorem readArgs_serializeKeys (ks : List String) :
    readArgs (serializeKeys ks) = .ok (ks.map JSVal.vstr) := by
  cases ks with
  | nil => rfl
  | cons k rest =>
      have h := readRawList_strings (k :: rest)
      simp only [List.map_cons] at h
      simp [serializeKeys, readArgs, truthy, h]

/-- Assigning a key that is not yet present appends the field. -/
theorem objInsert_fresh (acc : List (String × JSVal)) (k : String) (v : JSVal)
    (h : k ∉ acc.map Prod.fst) : objInsert acc k v = acc ++ [(k, v)] := by
  induction acc with
  | nil => rfl
  | cons f rest ih =>
      cases f with
      | mk k0 v0 =>
          simp only [List.map_cons, List.mem_cons] at h
          push_neg at h
          simp [objInsert, Ne.symm h.1, ih h.2]

/-- The reduce in the 'o' case of RpcTypes.read, run over distinct keys
that are all new to the accumulator, appends the zipped fields. -/
theorem buildObjGo_zip (fs : List (String × JSVal)) :
    ∀ acc : List (String × JSVal), (fs.map Prod.fst).Nodup →
      (∀ k ∈ fs.map Prod.fst, k ∉ acc.map Prod.fst) →
      buildObjGo acc ((fs.map Prod.fst).map JSVal.vstr) (fs.map Prod.snd) = acc ++ fs := by
  induction fs with
  | nil => intro acc _ _; simp [buildObjGo]
  | cons f rest ih =>
      intro acc hnd hfresh
      obtain ⟨k, v⟩ := f
      simp only [List.map_cons, List.nodup_cons] at hnd
      have hk : k ∉ acc.map Prod.fst := hfresh k (by simp)
      have hfresh2 : ∀ k2 ∈ rest.map Prod.fst, k2 ∉ (acc ++ [(k, v)]).map Prod.fst := by
        intro k2 hk2 hmem
        rw [List.map_append] at hmem
        rcases List.mem_append.mp hmem with hmem | hmem
        · exact hfresh k2 (by simp [hk2]) hmem
        · simp only [List.map_cons, List.map_nil, List.mem_singleton] at hmem
          exact hnd.1 (hmem ▸ hk2)
      have step : buildObjGo acc (((⟨k, v⟩ :: rest).map Prod.fst).map JSVal.vstr)
          ((⟨k, v⟩ :: rest).map Prod.snd)
          = buildObjGo (acc ++ [(k, v)]) ((rest.map Prod.fst).map JSVal.vstr)
            (rest.map Prod.snd) := by
        simp [buildObjGo, jsToStr, objInsert_fresh acc k v hk]
      rw [step, ih (acc ++ [(k, v)]) hnd.2 hfresh2]
      simp

/-- Zipping the decoded keys and values of a serialized object
reconstructs exactly its fields, given the distinct keys every JavaScript
object has. -/
theorem buildObj_roundtrip (fs : List (String × JSVal))
    (hnd : (keyNames fs).Nodup) :
    buildObj ((keyNames fs).map JSVal.vstr) (fs.map Prod.snd) = fs := by
  have h := buildObjGo_zip fs [] (by simpa [keyNames] using hnd) (by simp)
  simpa [buildObj, keyNames] using h

mutual

/-- Round trip for one representable value: reading back its serialized
form yields the value. -/
theorem roundVal (v : JSVal) (h : representable v = true) :
    (serializeVal v).bind readRaw = .ok v := by
  cases v with
  | vnull => rfl
  | vundef => rfl
  | vnum n => rfl
  | vbool b => rfl
  | vstr s => rfl
  | vfun f => simp [representable] at h
  | vvec3 x y z => rfl
  | varr es =>
      have hes : representableList es = true := by
        simpa [representable] using h
      have ih := roundArgs es hes
      cases hw : serializeArgs es with
      | error e => rw [hw] at ih; simp [Bind.bind, Except.bind] at ih
      | ok w =>
          rw [hw] at ih
          have hr : readArgs w = .ok es := by
            simpa [Bind.bind, Except.bind] using ih
          simp [serializeVal, hw, Bind.bind, Except.bind, Pure.pure, Except.pure,
            readRaw, readType, hr]
  | vobj fs =>
      have h2 : (keyNames fs).Nodup ∧ representableFields fs = true := by
        simpa [representable, Bool.and_eq_true, decide_eq_true_iff] using h
      have ih := roundFieldVals fs h2.2
      cases hw : serializeFieldVals fs with
      | error e => rw [hw] at ih; simp [Bind.bind, Except.bind] at ih
      | ok vw =>
          rw [hw] at ih
          have hr : readArgs vw = .ok (fs.map Prod.snd) := by
            simpa [Bind.bind, Except.bind] using ih
          simp [serializeVal, hw, Bind.bind, Except.bind, Pure.pure, Except.pure,
            readRaw, readType, readArgs_serializeKeys, hr,
            buildObj_roundtrip fs h2.1]

/-- Round trip for a representable argument list through the list-level
serializer (absence sentinel for the empty list included). -/
theorem roundArgs (es : List JSVal) (h : representableList es = true) :
    (serializeArgs es).bind readArgs = .ok es := by
  cases es with
  | nil => rfl
  | cons v vs =>
      have h2 : representable v = true ∧ representableList vs = true := by
        simpa [representableList, Bool.and_eq_true] using h
      have ihv := roundVal v h2.1
      have ihl := roundList vs h2.2
      cases hw : serializeVal v with
      | error e => rw [hw] at ihv; simp [Bind.bind, Except.bind] at ihv
      | ok w =>
          rw [hw] at ihv
          have hrv : readRaw w = .ok v := by
            simpa [Bind.bind, Except.bind] using ihv
          cases hws : serializeList vs with
          | error e => rw [hws] at ihl; simp [Bind.bind, Except.bind] at ihl
          | ok ws =>
              rw [hws] at ihl
              have hrl : readRawList ws = .ok vs := by
                simpa [Bind.bind, Except.bind] using ihl
              simp [serializeArgs, hw, hws, Bind.bind, Except.bind, Pure.pure,
                Except.pure, readArgs, truthy, readRawList, hrv, hrl]

/-- Round trip for the element-by-element serializer map. -/
theorem roundList (es : List JSVal) (h : representableList es = true) :
    (serializeList es).bind readRawList = .ok es := by
  cases es with
  | nil => rfl
  | cons v vs =>
      have h2 : representable v = true ∧ representableList vs = true := by
        simpa [representableList, Bool.and_eq_true] using h
      have ihv := roundVal v h2.1
      have ihl := roundList vs h2.2
      cases hw : serializeVal v with
      | error e => rw [hw] at ihv; simp [Bind.bind, Except.bind] at ihv
      | ok w =>
          rw [hw] at ihv
          have hrv : readRaw w = .ok v := by
            simpa [Bind.bind, Except.bind] using ihv
          cases hws : serializeList vs with
          | error e => rw [hws] at ihl; simp [Bind.bind, Except.bind] at ihl
          | ok ws =>
              rw [hws] at ihl
              have hrl : readRawList ws = .ok vs := by
                simpa [Bind.bind, Except.bind] using ihl
              simp [serializeList, hw, hws, Bind.bind, Except.bind, Pure.pure,
                Except.pure, readRawList, hrv, hrl]

/-- Round trip for the serialized field values of an object whose values
are representable. -/
theorem roundFieldVals (fs : List (String × JSVal))
    (h : representableFields fs = true) :
    (serializeFieldVals fs).bind readArgs = .ok (fs.map Prod.snd) := by
  cases fs with
  | nil => rfl
  | cons f rest =>
      obtain ⟨k, v⟩ := f
      have h2 : representable v = true ∧ representableFields rest = true := by
        simpa [representableFields, Bool.and_eq_true] using h
      have ihv := roundVal v h2.1
      have ihl := roundFieldList rest h2.2
      cases hw : serializeVal v with
      | error e => rw [hw] at ihv; simp [Bind.bind, Except.bind] at ihv
      | ok w =>
          rw [hw] at ihv
          have hrv : readRaw w = .ok v := by
            simpa [Bind.bind, Except.bind] using ihv
          cases hws : serializeFieldList rest with
          | error e => rw [hws] at ihl; simp [Bind.bind, Except.bind] at ihl
          | ok ws =>
              rw [hws] at ihl
              have hrl : readRawList ws = .ok (rest.map Prod.snd) := by
                simpa [Bind.bind, Except.bind] using ihl
              simp [serializeFieldVals, hw, hws, Bind.bind, Except.bind, Pure.pure,
                Except.pure, readArgs, truthy, readRawList, hrv, hrl]

/-- Round trip for the field-value serializer map. -/
theorem roundFieldList (fs : List (String × JSVal))
    (h : representableFields fs = true) :
    (serializeFieldList fs).bind readRawList = .ok (fs.map Prod.snd) := by
  cases fs with
  | nil => rfl
  | cons f rest =>
      obtain ⟨k, v⟩ := f
      have h2 : representable v = true ∧ representableFields rest = true := by
        simpa [representableFields, Bool.and_eq_true] using h
      have ihv := roundVal v h2.1
      have ihl := roundFieldList rest h2.2
      cases hw : serializeVal v with
      | error e => rw [hw] at ihv; simp [Bind.bind, Except.bind] at ihv
      | ok w =>
          rw [hw] at ihv
          have hrv : readRaw w = .ok v := by
            simpa [Bind.bind, Except.bind] using ihv
          cases hws : serializeFieldList rest with
          | error e => rw [hws] at ihl; simp [Bind.bind, Except.bind] at ihl
          | ok ws =>
              rw [hws] at ihl
              have hrl : readRawList ws = .ok (rest.map Prod.snd) := by
                simpa [Bind.bind, Except.bind] using ihl
              simp [serializeFieldList, hw, hws, Bind.bind, Except.bind, Pure.pure,
                Except.pure, readRawList, hrv, hrl]

end

mutual

/-- The serializer can never reach a throwing branch: it succeeds on
every value whatsoever, representable or not. -/
theorem serializeVal_total (v : JSVal) : ∃ w, serializeVal v = .ok w := by
  cases v with
  | varr es =>
      obtain ⟨w, hw⟩ := serializeArgs_total es
      exact ⟨.varr [.vstr "a", w], by simp [serializeVal, hw, Bind.bind, Except.bind,
        Pure.pure, Except.pure]⟩
  | vobj fs =>
      obtain ⟨w, hw⟩ := serializeFieldVals_total fs
      exact ⟨.varr [.vstr "o", serializeKeys (keyNames fs), w],
        by simp [serializeVal, hw, Bind.bind, Except.bind, Pure.pure, Except.pure]⟩
  | vvec3 x y z => exact ⟨_, rfl⟩
  | vnull => exact ⟨_, rfl⟩
  | vundef => exact ⟨_, rfl⟩
  | vnum n => exact ⟨_, rfl⟩
  | vbool b => exact ⟨_, rfl⟩
  | vstr s => exact ⟨_, rfl⟩
  | vfun f => exact ⟨_, rfl⟩

/-- The list-level serializer succeeds on every argument list. -/
theorem serializeArgs_total (es : List JSVal) : ∃ w, serializeArgs es = .ok w := by
  cases es with
  | nil => exact ⟨_, rfl⟩
  | cons v vs =>
      obtain ⟨w, hw⟩ := serializeVal_total v
      obtain ⟨ws, hws⟩ := serializeList_total vs
      exact ⟨.varr (w :: ws), by simp [serializeArgs, hw, hws, Bind.bind,
        Except.bind, Pure.pure, Except.pure]⟩

/-- The serializer map succeeds on every argument list. -/
theorem serializeList_total (es : List JSVal) : ∃ ws, serializeList es = .ok ws := by
  cases es with
  | nil => exact ⟨_, rfl⟩
  | cons v vs =>
      obtain ⟨w, hw⟩ := serializeVal_total v
      obtain ⟨ws, hws⟩ := serializeList_total vs
      exact ⟨w :: ws, by simp [serializeList, hw, hws, Bind.bind,
        Except.bind, Pure.pure, Except.pure]⟩

/-- The field-value serializer succeeds on every field list. -/
theorem serializeFieldVals_total (fs : List (String × JSVal)) :
    ∃ w, serializeFieldVals fs = .ok w := by
  cases fs with
  | nil => exact ⟨_, rfl⟩
  | cons f rest =>
      obtain ⟨k, v⟩ := f
      obtain ⟨w, hw⟩ := serializeVal_total v
      obtain ⟨ws, hws⟩ := serializeFieldList_total rest
      exact ⟨.varr (w :: ws), by simp [serializeFieldVals, hw, hws, Bind.bind,
        Except.bind, Pure.pure, Except.pure]⟩

/-- The field-value serializer map succeeds on every field list. -/
theorem serializeFieldList_total (fs : List (String × JSVal)) :
    ∃ ws, serializeFieldList fs = .ok ws := by
  cases fs with
  | nil => exact ⟨_, rfl⟩
  | cons f rest =>
      obtain ⟨k, v⟩ := f
      obtain ⟨w, hw⟩ := serializeVal_total v
      obtain ⟨ws, hws⟩ := serializeFieldList_total rest
      exact ⟨w :: ws, by simp [serializeFieldList, hw, hws, Bind.bind,
        Except.bind, Pure.pure, Except.pure]⟩

end

/-!  Claim theorems. -/

/-- C1: Codec round-trip.  For every argument list of representable
values (primitives, null/undefined, Vector3 values, ordered sequences,
keyed maps, and arbitrary nestings of these),
RpcArguments.read(RpcArguments.serialize(args)) yields a value equal to
args. -/
theorem c1_codec_round_trip (args : List JSVal)
    (h : representableList args = true) :
    (serializeVariadic [JSVal.varr args]).bind readArgs = .ok args :=
  roundArgs args h

/-- Witness for C1 at a nested concrete argument list: a vector, a
sequence holding a keyed map and null, and a string. -/
theorem c1_codec_round_trip_witness :
    representableList [JSVal.vvec3 1 2 3,
      JSVal.varr [JSVal.vobj [("k", JSVal.vnum 7), ("s", JSVal.vstr "hi")],
        JSVal.vnull],
      JSVal.vstr "x"] = true ∧
    (serializeVariadic [JSVal.varr [JSVal.vvec3 1 2 3,
      JSVal.varr [JSVal.vobj [("k", JSVal.vnum 7), ("s", JSVal.vstr "hi")],
        JSVal.vnull],
      JSVal.vstr "x"]]).bind readArgs = .ok [JSVal.vvec3 1 2 3,
      JSVal.varr [JSVal.vobj [("k", JSVal.vnum 7), ("s", JSVal.vstr "hi")],
        JSVal.vnull],
      JSVal.vstr "x"] :=
  ⟨by decide, c1_codec_round_trip _ (by decide)⟩

/-- C4 counterexample: serializing a function value does not raise an
encode failure; the function is silently returned onto the wire
unchanged, contradicting the claim. -/
theorem c4_counterexample :
    serializeVal (.vfun "handler") = .ok (.vfun "handler") := rfl

/-- C4 amended: serializing a non-codec-representable value never raises;
a function value is passed through onto the wire unchanged (the source's
"No way to serialize" default branch is unreachable, see
serializeVal_step_spec), and a live object that is neither an array nor
a Vector3 is encoded as a keyed map. -/
theorem c4_serialize_never_raises (v : JSVal) (f : String)
    (fs : List (String × JSVal)) :
    (∃ w, serializeVal v = .ok w) ∧
    serializeVal (.vfun f) = .ok (.vfun f) ∧
    serializeVal (.vobj fs) =
      (serializeFieldVals fs).bind
        (fun valsWire => .ok (.varr [.vstr "o", serializeKeys (keyNames fs), valsWire])) := by
  refine ⟨serializeVal_total v, rfl, ?_⟩
  cases h : serializeFieldVals fs <;>
    simp [serializeVal, h, Bind.bind, Except.bind, Pure.pure, Except.pure]

/-- C5 counterexample: the wire form of serialize() with zero arguments
and the wire form of serialize([]) on an explicit empty sequence are the
same sentinel null, not distinguishable by tag presence as claimed. -/
theorem c5_counterexample :
    serializeVariadic [] = serializeVariadic [JSVal.varr []] ∧
      serializeVariadic [] = .ok .vnull :=
  ⟨rfl, rfl⟩

/-- C5 amended: serialize() with zero arguments yields the absence
sentinel null; read of the sentinel yields the empty ordered sequence;
serialize([]) on an explicit empty sequence yields the very same
sentinel (the two call shapes are indistinguishable on the wire), and
reading it back also yields the empty sequence. -/
theorem c5_absence_sentinel :
    serializeVariadic [] = .ok .vnull ∧
    readArgs .vnull = .ok [] ∧
    serializeVariadic [JSVal.varr []] = .ok .vnull ∧
    (serializeVariadic [JSVal.varr []]).bind readArgs = .ok [] :=
  ⟨rfl, rfl, rfl, rfl⟩

/-- Inside one window (every timestamp at most 1000ms after the window
start), the limiter produces exactly the windowDecisions of its running
count and only advances the count, never the window start. -/
theorem runCalls_in_window (cfg : RpcConfig) (t0 : Int) (ts : List Int)
    (hin : ∀ t ∈ ts, t - t0 ≤ 1000) :
    ∀ c : Int, runCalls cfg { last := some t0, calls := c } ts =
      (windowDecisions cfg.maxRate c ts.length,
       { last := some t0, calls := c + ts.length }) := by
  induction ts with
  | nil => intro c; simp [runCalls, windowDecisions]
  | cons t rest ih =>
      intro c
      have ht : ¬ t - t0 > 1000 := by
        have := hin t (by simp)
        omega
      have hrest : ∀ t2 ∈ rest, t2 - t0 ≤ 1000 := fun t2 h2 => hin t2 (by simp [h2])
      have step : globalAllows cfg { last := some t0, calls := c } t =
          (decide (c + 1 ≤ cfg.maxRate), { last := some t0, calls := c + 1 }) := by
        by_cases hle : c + 1 ≤ cfg.maxRate
        · have hnot : ¬ (c + 1 > cfg.maxRate) := by omega
          simp [globalAllows, ht, hnot, hle]
        · have hgt : c + 1 > cfg.maxRate := by omega
          simp [globalAllows, ht, hgt, hle]
      have tail := ih hrest (c + 1)
      simp only [runCalls, step, tail, List.length_cons, windowDecisions]
      simp only [Prod.mk.injEq, GlobalLimiterState.mk.injEq, true_and]
      push_cast
      ring

/-- C3 counterexample: with maxRate 5 and window start 0, the seventh
call, issued exactly 1000ms (which is at least 1000ms) after the window
start, is denied rather than admitted into a fresh window: the source
only opens a fresh window strictly after 1000ms. -/
theorem c3_counterexample :
    runCalls { maxRate := 5, unreliable := false } .init
        [0, 0, 0, 0, 0, 0, 1000] =
      ([true, true, true, true, true, false, false],
       { last := some 0, calls := 7 }) := rfl

/-- C3 amended: with maxRate 5, the first call opens the window and is
admitted; every further call whose timestamp is at most 1000ms after the
window start is admitted exactly while the running count stays within 5
(so calls 2..5 are admitted and the 6th is denied); and any call issued
strictly more than 1000ms after the window start is admitted into a
fresh window with count 1, regardless of how many calls, admitted or
denied, the previous window counted. -/
theorem c3_rate_limiter_window (cfg : RpcConfig) (h5 : cfg.maxRate = 5)
    (t0 : Int) (ts : List Int) (hin : ∀ t ∈ ts, t - t0 ≤ 1000) :
    runCalls cfg .init (t0 :: ts) =
      (true :: windowDecisions 5 1 ts.length,
       { last := some t0, calls := 1 + ts.length }) ∧
    windowDecisions 5 1 5 = [true, true, true, true, false] ∧
    (∀ (st : GlobalLimiterState) (l now : Int), st.last = some l →
      now - l > 1000 →
      globalAllows cfg st now = (true, { last := some now, calls := 1 })) := by
  refine ⟨?_, rfl, ?_⟩
  · have h := runCalls_in_window cfg t0 ts hin 1
    rw [h5] at h
    simp [runCalls, globalAllows, GlobalLimiterState.init, h]
  · intro st l now hl hgt
    simp [globalAllows, hl, hgt]

/-- Witness for C3 at the spec's own scenario: six calls inside one
window admit five and deny the sixth, and a call 1001ms after the window
start is admitted fresh even after seven counted calls. -/
theorem c3_rate_limiter_window_witness :
    runCalls { maxRate := 5, unreliable := false } .init
        [0, 100, 200, 300, 400, 900] =
      ([true, true, true, true, true, false], { last := some 0, calls := 6 }) ∧
    globalAllows { maxRate := 5, unreliable := false }
        { last := some 0, calls := 7 } 1001 =
      (true, { last := some 1001, calls := 1 }) := by
  have h := c3_rate_limiter_window { maxRate := 5, unreliable := false } rfl
    0 [100, 200, 300, 400, 900] (by decide)
  constructor
  · rw [h.1]; rfl
  · exact h.2.2 { last := some 0, calls := 7 } 0 1001 rfl (by decide)

/-- C10: the first call of any fresh window (no prior timestamp, or
strictly more than 1000ms after the window start) is admitted without
consulting the configured maxRate, for every configuration; consequently
a limiter configured with maxRate 0 still admits one call per window
(and denies the rest of each window) rather than denying every call. -/
theorem c10_fresh_window_unconditional :
    (∀ (cfg : RpcConfig) (st : GlobalLimiterState) (now : Int),
      (st.last = none ∨ ∃ l, st.last = some l ∧ now - l > 1000) →
      globalAllows cfg st now = (true, { last := some now, calls := 1 })) ∧
    runCalls { maxRate := 0, unreliable := false } .init [5, 6, 1006, 1007] =
      ([true, false, true, false], { last := some 1006, calls := 2 }) := by
  constructor
  · intro cfg st now h
    rcases h with h | ⟨l, hl, hgt⟩
    · simp [globalAllows, h]
    · simp [globalAllows, hl, hgt]
  · rfl

/-- Witness for C10: a limiter with maxRate 0 and a stale window admits a
call arriving 1500ms after the window start, whatever the count was. -/
theorem c10_fresh_window_unconditional_witness :
    globalAllows { maxRate := 0, unreliable := false }
        { last := some 0, calls := 99 } 1500 =
      (true, { last := some 1500, calls := 1 }) :=
  c10_fresh_window_unconditional.1 { maxRate := 0, unreliable := false }
    { last := some 0, calls := 99 } 1500 (Or.inr ⟨0, rfl, by decide⟩)

/-- VMElement.from on a node always yields a wrapper and leaves it
stashed on the node. -/
theorem from_caches (st : DomCache) (n : NodeId) :
    ∃ w0 st1, VMElement.from st (some n) = (some w0, st1) ∧
      natFind st1.vmElementOf n = some w0 := by
  cases h : natFind st.vmElementOf n with
  | some w => exact ⟨w, st, by simp [VMElement.from, h], h⟩
  | none =>
      refine ⟨st.nextWrapper,
        { vmElementOf := (n, st.nextWrapper) :: st.vmElementOf,
          wrapperNode := (st.nextWrapper, n) :: st.wrapperNode,
          nextWrapper := st.nextWrapper + 1 },
        by simp [VMElement.from, h], ?_⟩
      simp [natFind]

/-- VMElement.from never disturbs an existing node-to-wrapper entry: a
node keeps its one wrapper for its whole lifetime. -/
theorem from_mono (st : DomCache) (x : Option NodeId) (m : NodeId)
    (w0 : WrapperId) (h : natFind st.vmElementOf m = some w0) :
    natFind (VMElement.from st x).2.vmElementOf m = some w0 := by
  cases x with
  | none => simpa [VMElement.from] using h
  | some n =>
      cases hn : natFind st.vmElementOf n with
      | some w => simpa [VMElement.from, hn] using h
      | none =>
          have hne : n ≠ m := fun he => by rw [he, h] at hn; cases hn
          simp [VMElement.from, hn, natFind, hne, h]

/-- A second VMElement.from on the same node returns the identical
wrapper and changes nothing. -/
theorem from_idem (st : DomCache) (n : NodeId) (w : Option WrapperId)
    (st1 : DomCache) (h : VMElement.from st (some n) = (w, st1)) :
    VMElement.from st1 (some n) = (w, st1) := by
  obtain ⟨w0, st1', heq, hcache⟩ := from_caches st n
  rw [heq] at h
  simp only [Prod.mk.injEq] at h
  obtain ⟨hw, hst⟩ := h
  rw [← hw, ← hst]
  simp [VMElement.from, hcache]

/-- The query map never disturbs an existing node-to-wrapper entry. -/
theorem queryWrap_mono (ns : List NodeId) :
    ∀ (st : DomCache) (ws : List (Option WrapperId)) (st1 : DomCache)
      (m : NodeId) (w0 : WrapperId),
      queryWrap st ns = (ws, st1) → natFind st.vmElementOf m = some w0 →
      natFind st1.vmElementOf m = some w0 := by
  induction ns with
  | nil =>
      intro st ws st1 m w0 h hm
      simp only [queryWrap, Prod.mk.injEq] at h
      rw [← h.2]; exact hm
  | cons n rest ih =>
      intro st ws st1 m w0 h hm
      cases h1 : VMElement.from st (some n) with
      | mk w stMid =>
          cases h2 : queryWrap stMid rest with
          | mk ws2 st2 =>
              simp only [queryWrap, h1, h2, Prod.mk.injEq] at h
              have hm2 : natFind stMid.vmElementOf m = some w0 := by
                have := from_mono st (some n) m w0 hm
                rwa [h1] at this
              have := ih stMid ws2 st2 m w0 h2 hm2
              rwa [h.2] at this

/-- Re-running the query map over the same nodes on the cache it produced
returns the identical wrappers and changes nothing. -/
theorem queryWrap_idem (ns : List NodeId) :
    ∀ (st : DomCache) (ws : List (Option WrapperId)) (st1 : DomCache),
      queryWrap st ns = (ws, st1) → queryWrap st1 ns = (ws, st1) := by
  induction ns with
  | nil =>
      intro st ws st1 h
      simp only [queryWrap, Prod.mk.injEq] at h
      rw [← h.1, ← h.2]
      rfl
  | cons n rest ih =>
      intro st ws st1 h
      obtain ⟨w0, stc, heq, hcache⟩ := from_caches st n
      cases h2 : queryWrap stc rest with
      | mk ws2 st2 =>
          have hh : queryWrap st (n :: rest) = (some w0 :: ws2, st2) := by
            simp [queryWrap, heq, h2]
          rw [hh] at h
          simp only [Prod.mk.injEq] at h
          obtain ⟨hws, hst⟩ := h
          have hpers : natFind st2.vmElementOf n = some w0 :=
            queryWrap_mono rest stc ws2 st2 n w0 h2 hcache
          have hfrom : VMElement.from st2 (some n) = (some w0, st2) := by
            simp [VMElement.from, hpers]
          have hrest : queryWrap st2 rest = (ws2, st2) := ih stc ws2 st2 h2
          rw [← hws, ← hst]
          simp [queryWrap, hfrom, hrest]

/-- C6: Document wrapper identity.  A lookup through VMElement.from
always yields a wrapper; a node's cached wrapper is never disturbed by
later lookups (exactly one wrapper per node for its lifetime); looking
the same node up again returns the reference-identical wrapper; and at
the document level, getElementById run twice for the same id returns the
reference-identical wrapper and leaves the cache unchanged. -/
theorem c6_wrapper_identity :
    (∀ (st : DomCache) (n : NodeId),
      ∃ w0 st1, VMElement.from st (some n) = (some w0, st1) ∧
        natFind st1.vmElementOf n = some w0) ∧
    (∀ (st : DomCache) (x : Option NodeId) (m : NodeId) (w0 : WrapperId),
      natFind st.vmElementOf m = some w0 →
      natFind (VMElement.from st x).2.vmElementOf m = some w0) ∧
    (∀ (st : DomCache) (n : NodeId) (w : Option WrapperId) (st1 : DomCache),
      VMElement.from st (some n) = (w, st1) →
      VMElement.from st1 (some n) = (w, st1)) ∧
    (∀ (doc : VMDoc) (st : DomCache) (id : String)
      (w : Option WrapperId) (st1 : DomCache),
      getElementById doc st id = (w, st1) →
      getElementById doc st1 id = (w, st1)) := by
  refine ⟨from_caches, fun st x m w0 h => from_mono st x m w0 h, from_idem, ?_⟩
  intro doc st id w st1 h
  cases hq : queryWrap st (findByIdNodes doc id) with
  | mk ws st2 =>
      have hh : getElementById doc st id = (ws.headD none, st2) := by
        simp [getElementById, hq]
      rw [hh] at h
      simp only [Prod.mk.injEq] at h
      obtain ⟨hw, hst⟩ := h
      have hidem := queryWrap_idem (findByIdNodes doc id) st ws st2 hq
      rw [← hw, ← hst]
      simp [getElementById, hidem]

/-- Witness for C6: on a two-node document with an empty cache, looking
id "a" up twice yields the reference-identical wrapper 0 and the second
lookup leaves the cache untouched. -/
theorem c6_wrapper_identity_witness :
    getElementById { nodes := [(1, some "a"), (2, none)] }
        ((getElementById { nodes := [(1, some "a"), (2, none)] }
          { vmElementOf := [], wrapperNode := [], nextWrapper := 0 } "a").2) "a" =
      (some 0,
       { vmElementOf := [(1, 0)], wrapperNode := [(0, 1)], nextWrapper := 1 }) :=
  c6_wrapper_identity.2.2.2 { nodes := [(1, some "a"), (2, none)] }
    { vmElementOf := [], wrapperNode := [], nextWrapper := 0 } "a" (some 0)
    { vmElementOf := [(1, 0)], wrapperNode := [(0, 1)], nextWrapper := 1 } rfl

/-- Overwriting a node's child list makes it the list found there. -/
theorem findChildren_natSet_self (l : List (Nat × List NodeId)) (k : Nat)
    (cs : List NodeId) : findChildren (natSetChildren l k cs) k = some cs := by
  induction l with
  | nil => simp [natSetChildren, findChildren]
  | cons f rest ih =>
      obtain ⟨k0, v0⟩ := f
      by_cases h : k0 = k <;> simp [natSetChildren, findChildren, h, ih]

/-- Overwriting a node's child list leaves every other node's list
alone. -/
theorem findChildren_natSet_other (l : List (Nat × List NodeId)) (k m : Nat)
    (cs : List NodeId) (hne : m ≠ k) :
    findChildren (natSetChildren l k cs) m = findChildren l m := by
  have hkm : k ≠ m := Ne.symm hne
  induction l with
  | nil => simp [natSetChildren, findChildren, hkm]
  | cons f rest ih =>
      obtain ⟨k0, v0⟩ := f
      by_cases h : k0 = k
      · subst h
        simp [natSetChildren, findChildren, hkm]
      · by_cases h2 : k0 = m <;>
          simp [natSetChildren, findChildren, h, h2, hne, ih]

/-- C7: Single-parent invariant on mutation.  appendChild of a child
whose underlying node already has a parent raises and returns the tree
exactly as it was (no node's parent, children or siblings change);
appendChild succeeds only for a parentless child, placing it at the end
of this element's children and touching no other node's children. -/
theorem c7_append_child_single_parent :
    (∀ (t : TreeDoc) (self child p : NodeId), treeParent t child = some p →
      appendChild t self child =
        (t, some (toString child ++ " already has a parent!"))) ∧
    (∀ (t : TreeDoc) (self child : NodeId), treeParent t child = none →
      (appendChild t self child).2 = none ∧
      childrenOf (appendChild t self child).1 self = childrenOf t self ++ [child] ∧
      (∀ m, m ≠ self → childrenOf (appendChild t self child).1 m = childrenOf t m)) := by
  constructor
  · intro t self child p h
    simp [appendChild, h]
  · intro t self child h
    refine ⟨by simp [appendChild, h], ?_, ?_⟩
    · simp [appendChild, h, childrenOf, findChildren_natSet_self]
    · intro m hm
      simp [appendChild, h, childrenOf, findChildren_natSet_other _ _ _ _ hm]

/-- Witness for C7 on a concrete two-node tree: appending the node that
already has a parent raises and returns the identical tree, while
appending a fresh node succeeds and adds it as the last child. -/
theorem c7_append_child_single_parent_witness :
    appendChild { children := [(1, [2]), (2, [])] } 2 2 =
      ({ children := [(1, [2]), (2, [])] }, some "2 already has a parent!") ∧
    (appendChild { children := [(1, [2]), (2, [])] } 1 3).2 = none ∧
    childrenOf (appendChild { children := [(1, [2]), (2, [])] } 1 3).1 1 = [2, 3] := by
  refine ⟨?_, ?_, ?_⟩
  · exact c7_append_child_single_parent.1 { children := [(1, [2]), (2, [])] } 2 2 1 rfl
  · exact (c7_append_child_single_parent.2
      { children := [(1, [2]), (2, [])] } 1 3 rfl).1
  · have h := (c7_append_child_single_parent.2
      { children := [(1, [2]), (2, [])] } 1 3 rfl).2.1
    rw [h]; rfl

/-- C8: Redundant participant update is suppressed.  updateState merges
the supplied partial position fields onto the existing componentwise
values; when the merged position equals the current one componentwise
the call assigns nothing and reports no state change; and applying one
complete position update twice leaves the state identical after the
second call, which reports no second state change. -/
theorem c8_redundant_update_suppressed :
    (∀ (s : ClientState) (u : StateUpdate),
      mergeState s u =
        { x := u.x.getD s.x, y := u.y.getD s.y, z := u.z.getD s.z }) ∧
    (∀ (s : ClientState) (u : StateUpdate),
      mergeState s u = s → updateState s u = (s, false)) ∧
    (∀ (s : ClientState) (a b c : Int),
      updateState (updateState s { x := some a, y := some b, z := some c }).1
          { x := some a, y := some b, z := some c } =
        ((updateState s { x := some a, y := some b, z := some c }).1, false)) := by
  refine ⟨fun s u => rfl, ?_, ?_⟩
  · intro s u h
    simp [updateState, h]
  · intro s a b c
    by_cases h : s.x = a ∧ s.y = b ∧ s.z = c
    · simp [updateState, mergeState, h.1, h.2.1, h.2.2]
    · have h1 : ¬ (s.x = a ∧ s.y = b ∧ s.z = c) := h
      simp [updateState, mergeState, h1]

/-- Witness for C8: the complete update 1,2,3 applied to a participant
already at 1,2,3 assigns nothing, and applied twice from the origin it
produces no second state change. -/
theorem c8_redundant_update_suppressed_witness :
    updateState { x := 1, y := 2, z := 3 }
        { x := some 1, y := some 2, z := some 3 } =
      ({ x := 1, y := 2, z := 3 }, false) ∧
    updateState (updateState ClientState.init
        { x := some 1, y := some 2, z := some 3 }).1
        { x := some 1, y := some 2, z := some 3 } =
      ((updateState ClientState.init
        { x := some 1, y := some 2, z := some 3 }).1, false) :=
  ⟨c8_redundant_update_suppressed.2.1 { x := 1, y := 2, z := 3 }
      { x := some 1, y := some 2, z := some 3 } rfl,
   c8_redundant_update_suppressed.2.2 ClientState.init 1 2 3⟩

/-- String.prototype.replace with a string pattern rewrites only the
first occurrence: with no quote before it, the first quote gains a
backslash and everything after it is left untouched. -/
theorem escapeFirstQuote_no_quote (a : List Char) (r : List Char)
    (ha : '\'' ∉ a) :
    escapeFirstQuote (a ++ '\'' :: r) = a ++ '\\' :: '\'' :: r := by
  induction a with
  | nil => simp [escapeFirstQuote]
  | cons c rest ih =>
      simp only [List.mem_cons] at ha
      push_neg at ha
      simp [escapeFirstQuote, Ne.symm ha.1, ih ha.2]

/-- C9: readArgsToString wraps a decoded string argument in single
quotes but escapes only the first single-quote character: for a string
with two or more quotes, the second and later quotes are embedded
unescaped in the generated call text. -/
theorem c9_quote_escaping (a b c : List Char) (ha : '\'' ∉ a) :
    readArgsToString (.varr [.vstr (String.mk (a ++ ('\'' :: (b ++ ('\'' :: c)))))]) =
      .ok (String.mk
        (('\'' :: (a ++ ('\\' :: '\'' :: (b ++ ('\'' :: c))))) ++ ['\''])) := by
  have hesc := escapeFirstQuote_no_quote a (b ++ ('\'' :: c)) ha
  calc readArgsToString (.varr [.vstr (String.mk (a ++ ('\'' :: (b ++ ('\'' :: c)))))])
      = .ok ("'" ++
          String.mk (escapeFirstQuote (a ++ ('\'' :: (b ++ ('\'' :: c))))) ++ "'") := rfl
    _ = .ok ("'" ++ String.mk (a ++ ('\\' :: '\'' :: (b ++ ('\'' :: c)))) ++ "'") := by
        rw [hesc]
    _ = .ok (String.mk
          (('\'' :: (a ++ ('\\' :: '\'' :: (b ++ ('\'' :: c))))) ++ ['\''])) := rfl

/-- Witness for C9 at the concrete string it' is' ok: the first quote is
escaped, the second is embedded unescaped inside the single-quoted
rendering. -/
theorem c9_quote_escaping_witness :
    readArgsToString (.varr [.vstr (String.mk
        (['i', 't'] ++ ('\'' :: ([' ', 'i', 's'] ++ ('\'' :: [' ', 'o', 'k'])))))]) =
      .ok (String.mk (('\'' :: (['i', 't'] ++ ('\\' :: '\'' ::
        ([' ', 'i', 's'] ++ ('\'' :: [' ', 'o', 'k']))))) ++ ['\''])) :=
  c9_quote_escaping ['i', 't'] [' ', 'i', 's'] [' ', 'o', 'k'] (by decide)

end RoomEngine
